import Mathlib

/-!
# Verification of the algebruh symbolic-algebra engine

A shallow embedding of `src/main.py`: the expression tree (`Expr` with the
four variants `Symbol`, `Integer`, `Add`, `Mul`), Python `repr` rendering
(infix), s-expression rendering (`to_sexpr`), equality (`Expr.__eq__` with the
`Symbol.__eq__` override), operator construction (`__add__` with the
`Integer.__add__` constant-folding shortcut, `__mul__`), `to_expr` coercion,
`simplify`, and `derivative`.
-/

namespace Algebruh

/-- The closed variant set of the expression model: `Symbol`, `Integer`,
`Add`, `Mul` (classes `Symbol`, `Integer`, `Add`, `Mul` in `main.py`). -/
inductive Expr where
  | Symbol (name : String)
  | Integer (value : Int)
  | Add (lhs rhs : Expr)
  | Mul (lhs rhs : Expr)
deriving DecidableEq

namespace Expr

/-- Number of nodes of an expression tree (used as a termination measure). -/
def size : Expr → Nat
  | Symbol _ => 1
  | Integer _ => 1
  | Add a b => 1 + size a + size b
  | Mul a b => 1 + size a + size b

end Expr

open Expr

/-- Decimal digits of a natural number, most significant first, with
explicit fuel (`fuel ≥ n` suffices).  Mirrors Python `str` on naturals. -/
def natCharsAux : Nat → Nat → List Char
  | 0, _ => []
  | fuel + 1, n =>
    if n = 0 then [] else natCharsAux fuel (n / 10) ++ [Nat.digitChar (n % 10)]

/-- Decimal rendering of a natural number, as Python `str` produces it. -/
def natChars (n : Nat) : List Char :=
  if n = 0 then ['0'] else natCharsAux n n

/-- Decimal rendering of an integer (Python `str(value)`): a `-` sign for
negative values followed by the decimal digits of the magnitude. -/
def intChars (z : Int) : List Char :=
  if z < 0 then '-' :: natChars z.natAbs else natChars z.natAbs

/-- Decimal rendering of an integer as a string. -/
def intStr (z : Int) : String := ⟨intChars z⟩

/-- Python `repr` of an expression as a character list: `Symbol.__repr__`
returns the name, `Integer.__repr__` returns `str(value)`,
`Add.__repr__`/`Mul.__repr__` return `f'({lhs} <op> {rhs})'`. -/
def reprChars : Expr → List Char
  | .Symbol n => n.data
  | .Integer v => intChars v
  | .Add a b => '(' :: (reprChars a ++ ' ' :: '+' :: ' ' :: (reprChars b ++ [')']))
  | .Mul a b => '(' :: (reprChars a ++ ' ' :: '*' :: ' ' :: (reprChars b ++ [')']))

/-- Python `repr` of an expression as a string. -/
def reprStr (e : Expr) : String := ⟨reprChars e⟩

/-- `to_sexpr` rendering as a character list: a binary node renders as
`(<op> <sexpr lhs> <sexpr rhs>)`, an atom renders as its `str` form. -/
def sexprChars : Expr → List Char
  | .Symbol n => n.data
  | .Integer v => intChars v
  | .Add a b => '(' :: '+' :: ' ' :: (sexprChars a ++ ' ' :: (sexprChars b ++ [')']))
  | .Mul a b => '(' :: '*' :: ' ' :: (sexprChars a ++ ' ' :: (sexprChars b ++ [')']))

/-- `to_sexpr(expr)` from `main.py`. -/
def to_sexpr (e : Expr) : String := ⟨sexprChars e⟩

/-- Python `==` between two expressions (`Expr.__eq__` resp. the
`Symbol.__eq__` override): a `Symbol` on the left compares true exactly
against a `Symbol` of the same name; any other left operand compares the
`repr` renderings of the two sides. -/
def eqb (a b : Expr) : Bool :=
  match a with
  | .Symbol n =>
    match b with
    | .Symbol m => n == m
    | _ => false
  | _ => reprChars a == reprChars b

/-- Python `+` on two expressions: `Integer.__add__` folds two `Integer`s
into `Integer(a.value + b.value)`; every other combination builds an
`Add` node (`Expr.__add__`). -/
def hAdd : Expr → Expr → Expr
  | .Integer x, .Integer y => .Integer (x + y)
  | a, b => .Add a b

/-- Python `*` on two expressions (`Expr.__mul__`): always builds a `Mul`
node, with no folding. -/
def hMul (a b : Expr) : Expr := .Mul a b

/-- `simplify(expr)` from `main.py`: atoms are returned unchanged; for
`Add`/`Mul` the children are simplified first and then the zero/identity
rules are applied, the equal-children rule rewrites to `2*a`, and otherwise
the node is rebuilt through the `+`/`*` construction. -/
def simplify : Expr → Expr
  | .Symbol n => .Symbol n
  | .Integer v => .Integer v
  | .Add x y =>
    let a := simplify x
    let b := simplify y
    if eqb a (.Integer 0) then b
    else if eqb b (.Integer 0) then a
    else if eqb a b then .Mul (.Integer 2) a
    else hAdd a b
  | .Mul x y =>
    let a := simplify x
    let b := simplify y
    if eqb a (.Integer 0) || eqb b (.Integer 0) then .Integer 0
    else if eqb a (.Integer 1) then b
    else if eqb b (.Integer 1) then a
    else hMul a b

/-- A Python value that may be handed to `to_expr`: an expression, a native
int, or an unsupported value (a float or a string), carried with its
`str(...)` rendering as used by the error message's f-string. -/
inductive PyVal where
  | expr (e : Expr)
  | int (i : Int)
  | float (display : String)
  | str (s : String)

/-- A Python exception as relevant here: `ValueError` or `TypeError`,
carrying the message. -/
inductive PyError where
  | valueError (msg : String)
  | typeError (msg : String)
deriving DecidableEq

/-- Whether a computation failed with a `TypeError`-class error. -/
def isTypeErrorResult : Except PyError Expr → Bool
  | .error (.typeError _) => true
  | _ => false

/-- `to_expr(thing)` from `main.py`: an `Expr` is returned unchanged, a
native int is wrapped in `Integer`, anything else raises
`ValueError(f'Cannot convert thing to Expr')` with the value interpolated. -/
def to_expr : PyVal → Except PyError Expr
  | .expr e => .ok e
  | .int i => .ok (.Integer i)
  | .float d => .error (.valueError ("Cannot convert " ++ d ++ " to Expr"))
  | .str s => .error (.valueError ("Cannot convert " ++ s ++ " to Expr"))

/-- Python `a + value` where `a` is an expression and `value` an arbitrary
Python value: the right operand passes through `to_expr` (errors propagate)
and then the expression-level `+` applies. -/
def pythonAdd (a : Expr) (v : PyVal) : Except PyError Expr :=
  Except.map (hAdd a) (to_expr v)

/-- Whether the name `n` occurs as a `Symbol` anywhere in the expression. -/
def occursName (n : String) : Expr → Bool
  | .Symbol m => n == m
  | .Integer _ => false
  | .Add a b => occursName n a || occursName n b
  | .Mul a b => occursName n a || occursName n b

/-- Fueled body of `derivative(expr, var)` from `main.py`: the decorated
function simplifies the raw result (`@simplify_ret`), and the body first
simplifies its input, then applies the sum rule, the product rule
`derivative(a)*b + derivative(b)*a`, `0` for `Integer`, and `1`/`0` for
`Symbol` by equality with `var`.  Fuel `≥ size expr` makes it total. -/
def derivAux : Nat → Expr → Expr → Expr
  | 0, _, _ => .Integer 0
  | fuel + 1, e, v =>
    simplify
      (match simplify e with
       | .Add a b => hAdd (derivAux fuel a v) (derivAux fuel b v)
       | .Mul a b => hAdd (hMul (derivAux fuel a v) b) (hMul (derivAux fuel b v) a)
       | .Integer _ => .Integer 0
       | .Symbol s => if eqb (.Symbol s) v then .Integer 1 else .Integer 0)

/-- `derivative(expr, var)` from `main.py` (the `@simplify_ret`-decorated
function), at its sufficient fuel. -/
def derivative (e v : Expr) : Expr := derivAux e.size e v

/-- The raw (pre-`simplify_ret`) body of `derivative`, expressed with the
recursive calls going through the decorated `derivative`. -/
def derivBody (e v : Expr) : Expr :=
  match simplify e with
  | .Add a b => hAdd (derivative a v) (derivative b v)
  | .Mul a b => hAdd (hMul (derivative a v) b) (hMul (derivative b v) a)
  | .Integer _ => .Integer 0
  | .Symbol s => if eqb (.Symbol s) v then .Integer 1 else .Integer 0

/-- Whether the expression is an `Integer` node. -/
def isInteger : Expr → Bool
  | .Integer _ => true
  | _ => false

/-- All `Symbol` names in the expression are nonempty and purely
alphabetic (so no name can collide with a rendered composite node or with
a decimal integer rendering). -/
def goodE : Expr → Bool
  | .Symbol n => !n.data.isEmpty && n.data.all Char.isAlpha
  | .Integer _ => true
  | .Add a b => goodE a && goodE b
  | .Mul a b => goodE a && goodE b

/-! ## Facts about the decimal rendering -/

/-- The ten digit characters avoid all structural characters of the two
renderings and are not alphabetic. -/
lemma digitChar_facts :
    ∀ d, d < 10 →
      Nat.digitChar d ≠ '(' ∧ Nat.digitChar d ≠ ')' ∧ Nat.digitChar d ≠ ' ' ∧
      Nat.digitChar d ≠ '+' ∧ Nat.digitChar d ≠ '*' ∧ Nat.digitChar d ≠ '-' ∧
      (Nat.digitChar d).isAlpha = false := by
  decide

lemma digitChar_inj_aux :
    ∀ d < 10, ∀ e < 10, Nat.digitChar d = Nat.digitChar e → d = e := by
  decide

lemma digitChar_inj_of_lt {d e : Nat} (hd : d < 10) (he : e < 10)
    (h : Nat.digitChar d = Nat.digitChar e) : d = e :=
  digitChar_inj_aux d hd e he h

lemma natCharsAux_eq_digits :
    ∀ fuel n, n ≤ fuel →
      natCharsAux fuel n = ((Nat.digits 10 n).map Nat.digitChar).reverse := by
  intro fuel
  induction fuel with
  | zero =>
    intro n hn
    interval_cases n
    simp [natCharsAux]
  | succ f ih =>
    intro n hn
    by_cases h0 : n = 0
    · subst h0
      simp [natCharsAux]
    · have hdiv : n / 10 ≤ f := by
        have := Nat.div_lt_self (Nat.pos_of_ne_zero h0) (by norm_num : 1 < 10)
        omega
      rw [natCharsAux, if_neg h0, ih _ hdiv,
        Nat.digits_def' (by norm_num : 1 < 10) (Nat.pos_of_ne_zero h0)]
      simp

lemma natChars_eq_digits {n : Nat} (hn : n ≠ 0) :
    natChars n = ((Nat.digits 10 n).map Nat.digitChar).reverse := by
  rw [natChars, if_neg hn, natCharsAux_eq_digits n n le_rfl]

lemma natChars_zero : natChars 0 = ['0'] := rfl

lemma natChars_mem {n : Nat} {c : Char} (hc : c ∈ natChars n) :
    ∃ d, d < 10 ∧ c = Nat.digitChar d := by
  by_cases h0 : n = 0
  · subst h0
    rw [natChars_zero] at hc
    exact ⟨0, by norm_num, by simpa using hc⟩
  · rw [natChars_eq_digits h0] at hc
    rw [List.mem_reverse, List.mem_map] at hc
    obtain ⟨d, hd, rfl⟩ := hc
    exact ⟨d, Nat.digits_lt_base (by norm_num) hd, rfl⟩

lemma natChars_ne_nil (n : Nat) : natChars n ≠ [] := by
  by_cases h0 : n = 0
  · subst h0; simp [natChars_zero]
  · rw [natChars_eq_digits h0]
    simp [Nat.digits_ne_nil_iff_ne_zero.mpr h0]

lemma natChars_inj {m n : Nat} (h : natChars m = natChars n) : m = n := by
  by_cases hm : m = 0 <;> by_cases hn : n = 0
  · omega
  · exfalso
    rw [hm, natChars_zero, natChars_eq_digits hn] at h
    have h' : (Nat.digits 10 n).map Nat.digitChar = ['0'] := by
      have := congrArg List.reverse h
      simpa using this.symm
    have hlen : (Nat.digits 10 n).length = 1 := by
      have := congrArg List.length h'
      simpa using this
    obtain ⟨d, hd⟩ := List.length_eq_one.mp hlen
    rw [hd] at h'
    simp only [List.map_cons, List.map_nil, List.cons.injEq, and_true] at h'
    have hd10 : d < 10 := Nat.digits_lt_base (by norm_num) (by rw [hd]; simp)
    have : d = 0 := digitChar_inj_of_lt hd10 (by norm_num) h'
    subst this
    have := Nat.ofDigits_digits 10 n
    rw [hd] at this
    simp [Nat.ofDigits] at this
    exact hn this.symm
  · exfalso
    rw [hn, natChars_zero, natChars_eq_digits hm] at h
    have h' : (Nat.digits 10 m).map Nat.digitChar = ['0'] := by
      have := congrArg List.reverse h
      simpa using this
    have hlen : (Nat.digits 10 m).length = 1 := by
      have := congrArg List.length h'
      simpa using this
    obtain ⟨d, hd⟩ := List.length_eq_one.mp hlen
    rw [hd] at h'
    simp only [List.map_cons, List.map_nil, List.cons.injEq, and_true] at h'
    have hd10 : d < 10 := Nat.digits_lt_base (by norm_num) (by rw [hd]; simp)
    have : d = 0 := digitChar_inj_of_lt hd10 (by norm_num) h'
    subst this
    have := Nat.ofDigits_digits 10 m
    rw [hd] at this
    simp [Nat.ofDigits] at this
    exact hm this.symm
  · rw [natChars_eq_digits hm, natChars_eq_digits hn] at h
    have h' := congrArg List.reverse h
    simp only [List.reverse_reverse] at h'
    have hmap : Nat.digits 10 m = Nat.digits 10 n := by
      clear h
      generalize hl : Nat.digits 10 m = l at h'
      generalize hl' : Nat.digits 10 n = l' at h'
      have hml : ∀ x ∈ l, x < 10 := fun x hx =>
        Nat.digits_lt_base (by norm_num) (hl ▸ hx)
      have hnl : ∀ x ∈ l', x < 10 := fun x hx =>
        Nat.digits_lt_base (by norm_num) (hl' ▸ hx)
      clear hl hl'
      induction l generalizing l' with
      | nil => cases l' <;> simp_all
      | cons a t iht =>
        cases l' with
        | nil => simp_all
        | cons a' t' =>
          simp only [List.map_cons, List.cons.injEq] at h'
          have ha : a = a' :=
            digitChar_inj_of_lt (hml a (by simp)) (hnl a' (by simp)) h'.1
          have ht : t = t' := iht t' h'.2
            (fun x hx => hml x (List.mem_cons_of_mem a hx))
            (fun x hx => hnl x (List.mem_cons_of_mem a' hx))
          rw [ha, ht]
    calc m = Nat.ofDigits 10 (Nat.digits 10 m) := (Nat.ofDigits_digits 10 m).symm
    _ = Nat.ofDigits 10 (Nat.digits 10 n) := by rw [hmap]
    _ = n := Nat.ofDigits_digits 10 n

lemma intChars_mem {z : Int} {c : Char} (hc : c ∈ intChars z) :
    c = '-' ∨ ∃ d, d < 10 ∧ c = Nat.digitChar d := by
  unfold intChars at hc
  split at hc
  · rcases List.mem_cons.mp hc with h | h
    · exact Or.inl h
    · exact Or.inr (natChars_mem h)
  · exact Or.inr (natChars_mem hc)

lemma intChars_ne_nil (z : Int) : intChars z ≠ [] := by
  unfold intChars
  split
  · simp
  · exact natChars_ne_nil _

lemma intChars_head_not_lparen (z : Int) :
    ∃ c l, intChars z = c :: l ∧ c ≠ '(' := by
  obtain ⟨c, l, h⟩ := List.exists_cons_of_ne_nil (intChars_ne_nil z)
  refine ⟨c, l, h, ?_⟩
  have hc : c ∈ intChars z := by rw [h]; simp
  rcases intChars_mem hc with rfl | ⟨d, hd, rfl⟩
  · decide
  · exact (digitChar_facts d hd).1

lemma intChars_inj {x y : Int} (h : intChars x = intChars y) : x = y := by
  have hhead : ∀ z : Int, ¬ z < 0 → ∀ l, natChars z.natAbs ≠ '-' :: l := by
    intro z _ l hcon
    have : '-' ∈ natChars z.natAbs := by rw [hcon]; simp
    obtain ⟨d, hd, hdc⟩ := natChars_mem this
    exact (digitChar_facts d hd).2.2.2.2.2.1 hdc.symm
  unfold intChars at h
  split at h <;> split at h
  · rename_i hx hy
    simp only [List.cons.injEq, true_and] at h
    have := natChars_inj h
    omega
  · rename_i hx hy
    exfalso
    exact hhead y hy _ h.symm
  · rename_i hx hy
    exfalso
    exact hhead x hx _ h
  · rename_i hx hy
    have := natChars_inj h
    omega

/-! ## Basic facts about `eqb`, `reprChars`, `hAdd` -/

lemma reprChars_add_head (a b : Expr) :
    reprChars (.Add a b)
      = '(' :: (reprChars a ++ ' ' :: '+' :: ' ' :: (reprChars b ++ [')'])) := rfl

lemma reprChars_mul_head (a b : Expr) :
    reprChars (.Mul a b)
      = '(' :: (reprChars a ++ ' ' :: '*' :: ' ' :: (reprChars b ++ [')'])) := rfl

lemma eqb_refl (e : Expr) : eqb e e = true := by
  cases e <;> simp [eqb]

/-- The test `a == 0` (resp. `a == k`) performed by `simplify` succeeds
exactly when `a` is the node `Integer k`: a `Symbol` never compares equal
to an integer, a composite's `repr` starts with `(`, and the decimal
rendering is injective. -/
lemma eqb_integer (a : Expr) (k : Int) : eqb a (.Integer k) = true ↔ a = .Integer k := by
  cases a with
  | Symbol n => simp [eqb]
  | Integer v =>
    simp only [eqb, beq_iff_eq, reprChars]
    constructor
    · intro h
      rw [intChars_inj h]
    · intro h
      injection h with h'
      rw [h']
  | Add x y =>
    simp only [eqb, beq_iff_eq, reprChars]
    obtain ⟨c, l, hl, hc⟩ := intChars_head_not_lparen k
    rw [hl]
    constructor
    · intro h
      injection h with h1 _
      exact absurd h1.symm hc
    · intro h
      exact absurd h (by simp)
  | Mul x y =>
    simp only [eqb, beq_iff_eq, reprChars]
    obtain ⟨c, l, hl, hc⟩ := intChars_head_not_lparen k
    rw [hl]
    constructor
    · intro h
      injection h with h1 _
      exact absurd h1.symm hc
    · intro h
      exact absurd h (by simp)

lemma hAdd_of_not_both_int {a b : Expr}
    (h : isInteger a = false ∨ isInteger b = false) : hAdd a b = .Add a b := by
  cases a <;> cases b <;> simp_all [hAdd, isInteger]

/-! ## Size bookkeeping and the unfolding equation of `derivative` -/

lemma size_pos (e : Expr) : 1 ≤ e.size := by
  cases e <;> simp [Expr.size] <;> omega

lemma simplify_add (x y : Expr) :
    simplify (.Add x y) =
      if eqb (simplify x) (.Integer 0) then simplify y
      else if eqb (simplify y) (.Integer 0) then simplify x
      else if eqb (simplify x) (simplify y) then .Mul (.Integer 2) (simplify x)
      else hAdd (simplify x) (simplify y) := rfl

lemma simplify_mul (x y : Expr) :
    simplify (.Mul x y) =
      if eqb (simplify x) (.Integer 0) || eqb (simplify y) (.Integer 0) then .Integer 0
      else if eqb (simplify x) (.Integer 1) then simplify y
      else if eqb (simplify y) (.Integer 1) then simplify x
      else hMul (simplify x) (simplify y) := rfl

lemma size_hAdd_le (a b : Expr) : (hAdd a b).size ≤ 1 + a.size + b.size := by
  cases a <;> cases b <;> simp [hAdd, Expr.size]

lemma size_simplify_le (e : Expr) : (simplify e).size ≤ e.size := by
  induction e with
  | Symbol n => simp [simplify]
  | Integer v => simp [simplify]
  | Add x y ihx ihy =>
    rw [simplify_add]
    have hx := size_pos x
    have hy := size_pos y
    have hsx := size_pos (simplify x)
    have hsy := size_pos (simplify y)
    split_ifs with h1 h2 h3
    · simp [Expr.size]; omega
    · simp [Expr.size]; omega
    · simp [Expr.size]; omega
    · have := size_hAdd_le (simplify x) (simplify y)
      simp [Expr.size] at *
      omega
  | Mul x y ihx ihy =>
    rw [simplify_mul]
    have hx := size_pos x
    have hy := size_pos y
    split_ifs with h1 h2 h3
    · simp [Expr.size]; omega
    · simp [Expr.size]; omega
    · simp [Expr.size]; omega
    · simp [hMul, Expr.size] at *
      omega

lemma sizes_of_simplify_eq_add {e a b : Expr} (h : simplify e = .Add a b) :
    a.size + b.size + 1 ≤ e.size := by
  have := size_simplify_le e
  rw [h] at this
  simp [Expr.size] at this
  omega

lemma sizes_of_simplify_eq_mul {e a b : Expr} (h : simplify e = .Mul a b) :
    a.size + b.size + 1 ≤ e.size := by
  have := size_simplify_le e
  rw [h] at this
  simp [Expr.size] at this
  omega

lemma derivAux_congr :
    ∀ f₁ f₂ e v, e.size ≤ f₁ → e.size ≤ f₂ → derivAux f₁ e v = derivAux f₂ e v := by
  intro f₁
  induction f₁ using Nat.strong_induction_on with
  | _ f₁ ih =>
    intro f₂ e v h1 h2
    match f₁, f₂ with
    | 0, _ => exact absurd h1 (by have := size_pos e; omega)
    | _ + 1, 0 => exact absurd h2 (by have := size_pos e; omega)
    | f + 1, g + 1 =>
      have hpa := size_pos e
      cases hs : simplify e with
      | Symbol n => simp only [derivAux, hs]
      | Integer w => simp only [derivAux, hs]
      | Add a b =>
        have hab := sizes_of_simplify_eq_add hs
        have hpb := size_pos a
        have hpc := size_pos b
        simp only [derivAux, hs]
        rw [ih f (by omega) g a v (by omega) (by omega),
          ih f (by omega) g b v (by omega) (by omega)]
      | Mul a b =>
        have hab := sizes_of_simplify_eq_mul hs
        have hpb := size_pos a
        have hpc := size_pos b
        simp only [derivAux, hs]
        rw [ih f (by omega) g a v (by omega) (by omega),
          ih f (by omega) g b v (by omega) (by omega)]

/-- The defining equation of the decorated `derivative`: the body
dispatches on the simplified input and the whole result is simplified. -/
lemma derivative_eq_body (e v : Expr) : derivative e v = simplify (derivBody e v) := by
  obtain ⟨k, hk⟩ : ∃ k, e.size = k + 1 := ⟨e.size - 1, by have := size_pos e; omega⟩
  rw [derivative, derivBody, hk]
  cases hs : simplify e with
  | Symbol n => simp only [derivAux, hs]
  | Integer w => simp only [derivAux, hs]
  | Add a b =>
    have hab := sizes_of_simplify_eq_add hs
    have hpb := size_pos a
    have hpc := size_pos b
    simp only [derivAux, hs, derivative]
    rw [derivAux_congr k a.size a v (by omega) le_rfl,
      derivAux_congr k b.size b v (by omega) le_rfl]
  | Mul a b =>
    have hab := sizes_of_simplify_eq_mul hs
    have hpb := size_pos a
    have hpc := size_pos b
    simp only [derivAux, hs, derivative]
    rw [derivAux_congr k a.size a v (by omega) le_rfl,
      derivAux_congr k b.size b v (by omega) le_rfl]

/-! ## Character counts of the `repr` rendering -/

lemma plus_notMem_intChars (z : Int) : '+' ∉ intChars z := by
  intro h
  rcases intChars_mem h with h' | ⟨d, hd, h'⟩
  · exact absurd h' (by decide)
  · exact (digitChar_facts d hd).2.2.2.1 h'.symm

lemma paren_notMem_intChars (z : Int) : '(' ∉ intChars z := by
  intro h
  rcases intChars_mem h with h' | ⟨d, hd, h'⟩
  · exact absurd h' (by decide)
  · exact (digitChar_facts d hd).1 h'.symm

lemma plus_count_int (z : Int) : (intChars z).count '+' = 0 :=
  List.count_eq_zero.mpr (plus_notMem_intChars z)

lemma paren_count_int (z : Int) : (intChars z).count '(' = 0 :=
  List.count_eq_zero.mpr (paren_notMem_intChars z)

lemma plus_count_add (a b : Expr) :
    (reprChars (.Add a b)).count '+'
      = (reprChars a).count '+' + (reprChars b).count '+' + 1 := by
  simp [reprChars_add_head, List.count_append, List.count_cons]
  omega

lemma plus_count_mul (a b : Expr) :
    (reprChars (.Mul a b)).count '+'
      = (reprChars a).count '+' + (reprChars b).count '+' := by
  simp [reprChars_mul_head, List.count_append, List.count_cons]

lemma paren_count_add (a b : Expr) :
    (reprChars (.Add a b)).count '('
      = (reprChars a).count '(' + (reprChars b).count '(' + 1 := by
  simp [reprChars_add_head, List.count_append, List.count_cons]

lemma paren_count_mul (a b : Expr) :
    (reprChars (.Mul a b)).count '('
      = (reprChars a).count '(' + (reprChars b).count '(' + 1 := by
  simp [reprChars_mul_head, List.count_append, List.count_cons]

lemma len_add (a b : Expr) :
    (reprChars (.Add a b)).length = (reprChars a).length + (reprChars b).length + 5 := by
  simp [reprChars_add_head]
  omega

lemma len_mul (a b : Expr) :
    (reprChars (.Mul a b)).length = (reprChars a).length + (reprChars b).length + 5 := by
  simp [reprChars_mul_head]
  omega

lemma reprChars_int (v : Int) : reprChars (.Integer v) = intChars v := rfl

lemma hAdd_cases (a b : Expr) :
    (∃ p q, a = .Integer p ∧ b = .Integer q ∧ hAdd a b = .Integer (p + q))
    ∨ hAdd a b = .Add a b := by
  cases a <;> cases b <;> simp [hAdd]

lemma plus_count_hAdd_le (a b : Expr) :
    (reprChars (hAdd a b)).count '+'
      ≤ (reprChars a).count '+' + (reprChars b).count '+' + 1 := by
  cases a <;> cases b <;>
    simp only [hAdd, plus_count_add, reprChars_int, plus_count_int] <;> omega

lemma paren_count_hAdd_le (a b : Expr) :
    (reprChars (hAdd a b)).count '('
      ≤ (reprChars a).count '(' + (reprChars b).count '(' + 1 := by
  cases a <;> cases b <;>
    simp only [hAdd, paren_count_add, reprChars_int, paren_count_int] <;> omega

/-- `simplify` never increases the number of `+` characters of the `repr`
rendering. -/
lemma plus_count_simplify_le (e : Expr) :
    (reprChars (simplify e)).count '+' ≤ (reprChars e).count '+' := by
  induction e with
  | Symbol n => simp [simplify]
  | Integer v => simp [simplify]
  | Add x y ihx ihy =>
    rw [simplify_add, plus_count_add]
    split_ifs with h1 h2 h3
    · omega
    · omega
    · rw [plus_count_mul]
      simp only [reprChars_int, plus_count_int]
      omega
    · have := plus_count_hAdd_le (simplify x) (simplify y)
      omega
  | Mul x y ihx ihy =>
    rw [simplify_mul, plus_count_mul]
    split_ifs with h1 h2 h3
    · simp only [reprChars_int, plus_count_int]
      omega
    · omega
    · omega
    · rw [hMul, plus_count_mul]
      omega

/-- `simplify` never increases the number of `(` characters of the `repr`
rendering. -/
lemma paren_count_simplify_le (e : Expr) :
    (reprChars (simplify e)).count '(' ≤ (reprChars e).count '(' := by
  induction e with
  | Symbol n => simp [simplify]
  | Integer v => simp [simplify]
  | Add x y ihx ihy =>
    rw [simplify_add, paren_count_add]
    split_ifs with h1 h2 h3
    · omega
    · omega
    · rw [paren_count_mul]
      simp only [reprChars_int, paren_count_int]
      omega
    · have := paren_count_hAdd_le (simplify x) (simplify y)
      omega
  | Mul x y ihx ihy =>
    rw [simplify_mul, paren_count_mul]
    split_ifs with h1 h2 h3
    · simp only [reprChars_int, paren_count_int]
      omega
    · omega
    · omega
    · rw [hMul, paren_count_mul]
      omega

/-! ## A length bound: decimal lengths and the growth budget -/

lemma natChars_len_eq {n : Nat} (hn : n ≠ 0) :
    (natChars n).length = (Nat.digits 10 n).length := by
  rw [natChars_eq_digits hn]
  simp

lemma natChars_len_pos (n : Nat) : 1 ≤ (natChars n).length :=
  List.length_pos.mpr (natChars_ne_nil n)

lemma natChars_len_mono {m n : Nat} (h : m ≤ n) :
    (natChars m).length ≤ (natChars n).length := by
  by_cases hm : m = 0
  · subst hm
    simpa [natChars_zero] using natChars_len_pos n
  · have hn : n ≠ 0 := by omega
    rw [natChars_len_eq hm, natChars_len_eq hn,
      Nat.digits_len 10 m (by norm_num) hm, Nat.digits_len 10 n (by norm_num) hn]
    have := Nat.log_mono_right (b := 10) h
    omega

lemma natChars_len_add_le (m n : Nat) :
    (natChars (m + n)).length ≤ (natChars m).length + (natChars n).length + 1 := by
  by_cases hm : m = 0
  · subst hm
    have := natChars_len_pos n
    simp only [Nat.zero_add]
    omega
  by_cases hn : n = 0
  · subst hn
    have := natChars_len_pos m
    simp only [Nat.add_zero]
    omega
  have hmn : m + n ≠ 0 := by omega
  rw [natChars_len_eq hm, natChars_len_eq hn, natChars_len_eq hmn]
  set Lm := (Nat.digits 10 m).length with hLm
  set Ln := (Nat.digits 10 n).length with hLn
  have h1 : m < 10 ^ Lm := Nat.lt_base_pow_length_digits (by norm_num)
  have h2 : n < 10 ^ Ln := Nat.lt_base_pow_length_digits (by norm_num)
  have hpow : 10 ^ Lm + 10 ^ Ln ≤ 10 ^ (Lm + Ln + 1) := by
    have ha : 10 ^ Lm ≤ 10 ^ (Lm + Ln) := Nat.pow_le_pow_right (by norm_num) (by omega)
    have hb : 10 ^ Ln ≤ 10 ^ (Lm + Ln) := Nat.pow_le_pow_right (by norm_num) (by omega)
    have hc : 10 ^ (Lm + Ln + 1) = 10 * 10 ^ (Lm + Ln) := by ring
    omega
  have hlt : m + n < 10 ^ (Lm + Ln + 1) := by omega
  rw [Nat.digits_len 10 (m + n) (by norm_num) hmn]
  have := Nat.log_lt_of_lt_pow hmn hlt
  omega

lemma intChars_length (z : Int) :
    (intChars z).length
      = (natChars z.natAbs).length + (if z < 0 then 1 else 0) := by
  unfold intChars
  split <;> simp

lemma intChars_add_len_le (x y : Int) :
    (intChars (x + y)).length ≤ (intChars x).length + (intChars y).length + 2 := by
  rw [intChars_length, intChars_length, intChars_length]
  have h1 : (x + y).natAbs ≤ x.natAbs + y.natAbs := Int.natAbs_add_le x y
  have h2 : (natChars (x + y).natAbs).length ≤ (natChars (x.natAbs + y.natAbs)).length :=
    natChars_len_mono h1
  have h3 := natChars_len_add_le x.natAbs y.natAbs
  split_ifs <;> omega

/-- The growth budget: `simplify` can lengthen the `repr` of a node only by
consuming a `+` character, so length plus `+`-count never increases. -/
lemma len_plus_simplify_le (e : Expr) :
    (reprChars (simplify e)).length + (reprChars (simplify e)).count '+'
      ≤ (reprChars e).length + (reprChars e).count '+' := by
  induction e with
  | Symbol n => simp [simplify]
  | Integer v => simp [simplify]
  | Add x y ihx ihy =>
    rw [simplify_add, plus_count_add, len_add]
    split_ifs with h1 h2 h3
    · omega
    · omega
    · have hform :
          reprChars (Expr.Mul (.Integer 2) (simplify x))
            = '(' :: '2' :: ' ' :: '*' :: ' ' :: (reprChars (simplify x) ++ [')']) := rfl
      rw [hform]
      have hc : ([')'] : List Char).count '+' = 0 := by decide
      simp only [List.length_cons, List.length_append, List.count_cons, List.count_append,
        List.length_nil, List.count_nil, hc]
      simp
      omega
    · rcases hAdd_cases (simplify x) (simplify y) with ⟨p, q, hp, hq, hE⟩ | hE
      · rw [hE]
        rw [hp] at ihx
        rw [hq] at ihy
        simp only [reprChars_int, plus_count_int] at ihx ihy ⊢
        have := intChars_add_len_le p q
        omega
      · rw [hE, plus_count_add, len_add]
        omega
  | Mul x y ihx ihy =>
    rw [simplify_mul, plus_count_mul, len_mul]
    split_ifs with h1 h2 h3
    · simp only [reprChars_int, plus_count_int]
      have : (intChars 0).length = 1 := by decide
      omega
    · omega
    · omega
    · rw [hMul, plus_count_mul, len_mul]
      omega

/-! ## `simplify` moves: a repr-preserved simplification is the identity -/

/-- If simplifying does not change the `repr` rendering, it does not change
the tree: every rewrite rule of `simplify` strictly decreases either the
`(`-count or the `+`-count of the rendering. -/
lemma simplify_eq_of_reprChars_eq :
    ∀ e, reprChars (simplify e) = reprChars e → simplify e = e := by
  intro e
  induction e with
  | Symbol n => intro _; rfl
  | Integer v => intro _; rfl
  | Add x y ihx ihy =>
    intro h
    rw [simplify_add] at h ⊢
    split_ifs at h ⊢ with h1 h2 h3
    · exfalso
      have hp := paren_count_simplify_le y
      rw [h, paren_count_add] at hp
      omega
    · exfalso
      have hp := paren_count_simplify_le x
      rw [h, paren_count_add] at hp
      omega
    · exfalso
      have hp := plus_count_simplify_le x
      have hh := congrArg (List.count '+') h
      rw [plus_count_mul, plus_count_add] at hh
      rw [reprChars_int, plus_count_int] at hh
      omega
    · rcases hAdd_cases (simplify x) (simplify y) with ⟨p, q, hp', hq', hE⟩ | hE
      · exfalso
        rw [hE, reprChars_int, reprChars_add_head] at h
        obtain ⟨c, l, hcl, hc⟩ := intChars_head_not_lparen (p + q)
        rw [hcl] at h
        injection h with hhead _
        exact hc hhead
      · rw [hE] at h ⊢
        have e1 := congrArg (List.count '+') h
        rw [plus_count_add, plus_count_add] at e1
        have m1 := plus_count_simplify_le x
        have m2 := plus_count_simplify_le y
        have g1 := len_plus_simplify_le x
        have g2 := len_plus_simplify_le y
        have e2 := congrArg List.length h
        rw [len_add, len_add] at e2
        have hlenA : (reprChars (simplify x)).length = (reprChars x).length := by omega
        have hlenB : (reprChars (simplify y)).length = (reprChars y).length := by omega
        rw [reprChars_add_head, reprChars_add_head] at h
        injection h with _ h'
        obtain ⟨hA, hB⟩ := List.append_inj h' hlenA
        simp only [List.cons.injEq, true_and] at hB
        have hBB := (List.append_inj hB hlenB).1
        rw [ihx hA, ihy hBB]
  | Mul x y ihx ihy =>
    intro h
    rw [simplify_mul] at h ⊢
    split_ifs at h ⊢ with h1 h2 h3
    · exfalso
      rw [reprChars_int, reprChars_mul_head] at h
      have h0 : intChars 0 = ['0'] := by decide
      rw [h0] at h
      injection h with hhead _
      exact absurd hhead (by decide)
    · exfalso
      have hp := paren_count_simplify_le y
      rw [h, paren_count_mul] at hp
      omega
    · exfalso
      have hp := paren_count_simplify_le x
      rw [h, paren_count_mul] at hp
      omega
    · rw [hMul] at h ⊢
      have e1 := congrArg (List.count '+') h
      rw [plus_count_mul, plus_count_mul] at e1
      have m1 := plus_count_simplify_le x
      have m2 := plus_count_simplify_le y
      have g1 := len_plus_simplify_le x
      have g2 := len_plus_simplify_le y
      have e2 := congrArg List.length h
      rw [len_mul, len_mul] at e2
      have hlenA : (reprChars (simplify x)).length = (reprChars x).length := by omega
      have hlenB : (reprChars (simplify y)).length = (reprChars y).length := by omega
      rw [reprChars_mul_head, reprChars_mul_head] at h
      injection h with _ h'
      obtain ⟨hA, hB⟩ := List.append_inj h' hlenA
      simp only [List.cons.injEq, true_and] at hB
      have hBB := (List.append_inj hB hlenB).1
      rw [ihx hA, ihy hBB]

/-- An expression that compares `==`-equal to its own simplification is a
structural fixed point of `simplify`. -/
lemma simplify_fix_of_eqb {e : Expr} (h : eqb (simplify e) e = true) :
    simplify e = e := by
  by_cases hsym : ∃ n, simplify e = Expr.Symbol n
  · obtain ⟨n, hs⟩ := hsym
    rw [hs] at h
    cases e with
    | Symbol m =>
      simp only [eqb, beq_iff_eq] at h
      rw [hs, h]
    | Integer w => simp [eqb] at h
    | Add p q => simp [eqb] at h
    | Mul p q => simp [eqb] at h
  · refine simplify_eq_of_reprChars_eq e ?_
    rcases hs : simplify e with n | v | ⟨a, b⟩ | ⟨a, b⟩
    · exact absurd ⟨n, hs⟩ hsym
    · rw [hs] at h
      simp only [eqb, beq_iff_eq] at h
      exact h
    · rw [hs] at h
      simp only [eqb, beq_iff_eq] at h
      exact h
    · rw [hs] at h
      simp only [eqb, beq_iff_eq] at h
      exact h

/-! ## Symbols occurring in a tree and the derivative of a foreign symbol -/

lemma occursName_hAdd (n : String) (a b : Expr) :
    occursName n (hAdd a b) = (occursName n a || occursName n b) := by
  cases a <;> cases b <;> simp [hAdd, occursName]

lemma occursName_simplify {n : String} {e : Expr} (h : occursName n e = false) :
    occursName n (simplify e) = false := by
  induction e with
  | Symbol m => exact h
  | Integer v => exact h
  | Add x y ihx ihy =>
    simp only [occursName, Bool.or_eq_false_iff] at h
    rw [simplify_add]
    split_ifs with h1 h2 h3
    · exact ihy h.2
    · exact ihx h.1
    · simp only [occursName, ihx h.1, Bool.or_false]
    · rw [occursName_hAdd, ihx h.1, ihy h.2]
      rfl
  | Mul x y ihx ihy =>
    simp only [occursName, Bool.or_eq_false_iff] at h
    rw [simplify_mul]
    split_ifs with h1 h2 h3
    · rfl
    · exact ihy h.2
    · exact ihx h.1
    · rw [hMul]
      simp only [occursName, ihx h.1, ihy h.2]
      rfl

lemma simplify_mul_zero_left (b : Expr) : simplify (.Mul (.Integer 0) b) = .Integer 0 := by
  rw [simplify_mul]
  have : simplify (Expr.Integer 0) = .Integer 0 := rfl
  rw [this, eqb_refl]
  simp

lemma deriv_zero_aux :
    ∀ k e (n : String), e.size ≤ k → occursName n e = false →
      derivative e (.Symbol n) = .Integer 0 := by
  intro k
  induction k with
  | zero =>
    intro e n hsz _
    exact absurd hsz (by have := size_pos e; omega)
  | succ k ih =>
    intro e n hsz hocc
    rw [derivative_eq_body, derivBody]
    have hoccs : occursName n (simplify e) = false := occursName_simplify hocc
    cases hs : simplify e with
    | Integer v => rfl
    | Symbol s =>
      rw [hs] at hoccs
      simp only [occursName, beq_eq_false_iff_ne, ne_eq] at hoccs
      have hne : eqb (.Symbol s) (.Symbol n) = false := by
        simp only [eqb, beq_eq_false_iff_ne, ne_eq]
        exact fun hc => hoccs hc.symm
      show simplify
          (if eqb (.Symbol s) (.Symbol n) = true then Expr.Integer 1 else .Integer 0)
        = .Integer 0
      rw [hne]
      rfl
    | Add a b =>
      rw [hs] at hoccs
      simp only [occursName, Bool.or_eq_false_iff] at hoccs
      have hszs := sizes_of_simplify_eq_add hs
      have hb := size_pos b
      have ha := size_pos a
      show simplify (hAdd (derivative a (.Symbol n)) (derivative b (.Symbol n)))
        = .Integer 0
      rw [ih a n (by omega) hoccs.1, ih b n (by omega) hoccs.2]
      rfl
    | Mul a b =>
      rw [hs] at hoccs
      simp only [occursName, Bool.or_eq_false_iff] at hoccs
      have hszs := sizes_of_simplify_eq_mul hs
      have hb := size_pos b
      have ha := size_pos a
      show simplify
          (hAdd (hMul (derivative a (.Symbol n)) b) (hMul (derivative b (.Symbol n)) a))
        = .Integer 0
      rw [ih a n (by omega) hoccs.1, ih b n (by omega) hoccs.2]
      have hstep : hAdd (hMul (.Integer 0) b) (hMul (.Integer 0) a)
          = .Add (.Mul (.Integer 0) b) (.Mul (.Integer 0) a) := rfl
      rw [hstep, simplify_add, simplify_mul_zero_left, simplify_mul_zero_left, eqb_refl]
      simp

/-! ## Unambiguity of the two renderings over well-named expressions -/

/-- The continuation after a sub-rendering starts with a delimiter (a space
or a closing parenthesis) or is empty. -/
def delimHead : List Char → Prop
  | [] => True
  | c :: _ => c = ' ' ∨ c = ')'

lemma noDelim_append_inj :
    ∀ (xs ys u v : List Char),
      xs ++ u = ys ++ v →
      (∀ c ∈ xs, c ≠ ' ' ∧ c ≠ ')') → (∀ c ∈ ys, c ≠ ' ' ∧ c ≠ ')') →
      delimHead u → delimHead v → xs = ys ∧ u = v := by
  intro xs
  induction xs with
  | nil =>
    intro ys u v h hx hy hu hv
    cases ys with
    | nil => simpa using h
    | cons b t =>
      exfalso
      simp only [List.nil_append, List.cons_append] at h
      rw [h] at hu
      rcases hu with h' | h'
      · exact (hy b (by simp)).1 h'
      · exact (hy b (by simp)).2 h'
  | cons a t iht =>
    intro ys u v h hx hy hu hv
    cases ys with
    | nil =>
      exfalso
      simp only [List.cons_append, List.nil_append] at h
      rw [← h] at hv
      rcases hv with h' | h'
      · exact (hx a (by simp)).1 h'
      · exact (hx a (by simp)).2 h'
    | cons b s =>
      simp only [List.cons_append, List.cons.injEq] at h
      obtain ⟨rfl, h2⟩ := h
      obtain ⟨he, hu'⟩ := iht s u v h2
        (fun c hc => hx c (List.mem_cons_of_mem _ hc))
        (fun c hc => hy c (List.mem_cons_of_mem _ hc)) hu hv
      exact ⟨by rw [he], hu'⟩

lemma alpha_ne (c : Char) (h : c.isAlpha = true) : c ≠ '(' ∧ c ≠ ')' ∧ c ≠ ' ' := by
  refine ⟨?_, ?_, ?_⟩ <;> intro hc <;> subst hc <;> exact absurd h (by decide)

lemma good_symbol_facts {n : String} (h : goodE (.Symbol n) = true) :
    n.data ≠ [] ∧ ∀ c ∈ n.data, c.isAlpha = true := by
  simp only [goodE, Bool.and_eq_true, Bool.not_eq_true', List.all_eq_true,
    List.isEmpty_eq_false] at h
  exact ⟨h.1, fun c hc => h.2 c hc⟩

lemma string_eq_of_data {n m : String} (h : n.data = m.data) : n = m :=
  String.ext h

lemma int_chars_not_delim (v : Int) : ∀ c ∈ intChars v, c ≠ ' ' ∧ c ≠ ')' := by
  intro c hc
  rcases intChars_mem hc with rfl | ⟨d, hd, rfl⟩
  · exact ⟨by decide, by decide⟩
  · exact ⟨(digitChar_facts d hd).2.2.1, (digitChar_facts d hd).2.1⟩

lemma good_symbol_not_delim {n : String} (h : goodE (.Symbol n) = true) :
    ∀ c ∈ n.data, c ≠ ' ' ∧ c ≠ ')' := by
  intro c hc
  have ha := (good_symbol_facts h).2 c hc
  exact ⟨(alpha_ne c ha).2.2, (alpha_ne c ha).2.1⟩

lemma intChars_exists_digit (z : Int) : ∃ d, d < 10 ∧ Nat.digitChar d ∈ intChars z := by
  have hnat : ∃ d, d < 10 ∧ Nat.digitChar d ∈ natChars z.natAbs := by
    obtain ⟨c, l, hcl⟩ := List.exists_cons_of_ne_nil (natChars_ne_nil z.natAbs)
    have hc : c ∈ natChars z.natAbs := by rw [hcl]; simp
    obtain ⟨d, hd, rfl⟩ := natChars_mem hc
    exact ⟨d, hd, hc⟩
  obtain ⟨d, hd, hmem⟩ := hnat
  unfold intChars
  split
  · exact ⟨d, hd, List.mem_cons_of_mem _ hmem⟩
  · exact ⟨d, hd, hmem⟩

lemma good_symbol_ne_intChars {n : String} (h : goodE (.Symbol n) = true) (v : Int) :
    n.data ≠ intChars v := by
  intro heq
  obtain ⟨d, hd, hmem⟩ := intChars_exists_digit v
  rw [← heq] at hmem
  have halpha := (good_symbol_facts h).2 _ hmem
  have hfalse := (digitChar_facts d hd).2.2.2.2.2.2
  rw [hfalse] at halpha
  exact absurd halpha (by decide)

lemma sexpr_shape_add (a₁ a₂ : Expr) (u : List Char) :
    sexprChars (.Add a₁ a₂) ++ u
      = '(' :: '+' :: ' ' :: (sexprChars a₁ ++ ' ' :: (sexprChars a₂ ++ ')' :: u)) := by
  simp [sexprChars]

lemma sexpr_shape_mul (a₁ a₂ : Expr) (u : List Char) :
    sexprChars (.Mul a₁ a₂) ++ u
      = '(' :: '*' :: ' ' :: (sexprChars a₁ ++ ' ' :: (sexprChars a₂ ++ ')' :: u)) := by
  simp [sexprChars]

lemma repr_shape_add (a₁ a₂ : Expr) (u : List Char) :
    reprChars (.Add a₁ a₂) ++ u
      = '(' :: (reprChars a₁ ++ ' ' :: '+' :: ' ' :: (reprChars a₂ ++ ')' :: u)) := by
  simp [reprChars]

lemma repr_shape_mul (a₁ a₂ : Expr) (u : List Char) :
    reprChars (.Mul a₁ a₂) ++ u
      = '(' :: (reprChars a₁ ++ ' ' :: '*' :: ' ' :: (reprChars a₂ ++ ')' :: u)) := by
  simp [reprChars]

lemma good_add_parts {a₁ a₂ : Expr} (h : goodE (.Add a₁ a₂) = true) :
    goodE a₁ = true ∧ goodE a₂ = true := by
  simpa [goodE, Bool.and_eq_true] using h

lemma good_mul_parts {a₁ a₂ : Expr} (h : goodE (.Mul a₁ a₂) = true) :
    goodE a₁ = true ∧ goodE a₂ = true := by
  simpa [goodE, Bool.and_eq_true] using h

lemma good_symbol_head_ne_lparen {n : String} (h : goodE (.Symbol n) = true) :
    ∀ {c l}, n.data = c :: l → c ≠ '(' := by
  intro c l hcl
  have hc : c ∈ n.data := by rw [hcl]; simp
  exact (alpha_ne c ((good_symbol_facts h).2 c hc)).1

lemma sexpr_symbol_data : ∀ s : String, sexprChars (.Symbol s) = s.data := fun _ => rfl

lemma repr_symbol_data : ∀ s : String, reprChars (.Symbol s) = s.data := fun _ => rfl

/-- The s-expression rendering is prefix-unambiguous over well-named
expressions: equal renderings followed by delimiter-headed continuations
come from equal trees. -/
lemma sexpr_unamb :
    ∀ a b (u v : List Char), goodE a = true → goodE b = true →
      sexprChars a ++ u = sexprChars b ++ v → delimHead u → delimHead v →
      a = b ∧ u = v := by
  intro a
  induction a with
  | Symbol n =>
    intro b u v hga hgb h hu hv
    cases b with
    | Symbol m =>
      obtain ⟨hd, hrest⟩ := noDelim_append_inj _ _ _ _ h
        (good_symbol_not_delim hga) (good_symbol_not_delim hgb) hu hv
      exact ⟨by rw [string_eq_of_data hd], hrest⟩
    | Integer w =>
      exfalso
      obtain ⟨hd, _⟩ := noDelim_append_inj _ _ _ _ h
        (good_symbol_not_delim hga) (int_chars_not_delim w) hu hv
      exact good_symbol_ne_intChars hga w hd
    | Add b₁ b₂ =>
      exfalso
      rw [sexpr_shape_add] at h
      obtain ⟨c, l, hcl⟩ := List.exists_cons_of_ne_nil (good_symbol_facts hga).1
      rw [sexpr_symbol_data, hcl] at h
      simp only [List.cons_append, List.cons.injEq] at h
      exact good_symbol_head_ne_lparen hga hcl h.1
    | Mul b₁ b₂ =>
      exfalso
      rw [sexpr_shape_mul] at h
      obtain ⟨c, l, hcl⟩ := List.exists_cons_of_ne_nil (good_symbol_facts hga).1
      rw [sexpr_symbol_data, hcl] at h
      simp only [List.cons_append, List.cons.injEq] at h
      exact good_symbol_head_ne_lparen hga hcl h.1
  | Integer w =>
    intro b u v hga hgb h hu hv
    cases b with
    | Symbol m =>
      exfalso
      obtain ⟨hd, _⟩ := noDelim_append_inj _ _ _ _ h
        (int_chars_not_delim w) (good_symbol_not_delim hgb) hu hv
      exact good_symbol_ne_intChars hgb w hd.symm
    | Integer z =>
      obtain ⟨hd, hrest⟩ := noDelim_append_inj _ _ _ _ h
        (int_chars_not_delim w) (int_chars_not_delim z) hu hv
      exact ⟨by rw [intChars_inj hd], hrest⟩
    | Add b₁ b₂ =>
      exfalso
      rw [sexpr_shape_add] at h
      obtain ⟨c, l, hcl, hc⟩ := intChars_head_not_lparen w
      rw [show sexprChars (.Integer w) = intChars w from rfl, hcl] at h
      simp only [List.cons_append, List.cons.injEq] at h
      exact hc h.1
    | Mul b₁ b₂ =>
      exfalso
      rw [sexpr_shape_mul] at h
      obtain ⟨c, l, hcl, hc⟩ := intChars_head_not_lparen w
      rw [show sexprChars (.Integer w) = intChars w from rfl, hcl] at h
      simp only [List.cons_append, List.cons.injEq] at h
      exact hc h.1
  | Add a₁ a₂ ih₁ ih₂ =>
    intro b u v hga hgb h hu hv
    obtain ⟨hga1, hga2⟩ := good_add_parts hga
    cases b with
    | Symbol m =>
      exfalso
      rw [sexpr_shape_add] at h
      obtain ⟨c, l, hcl⟩ := List.exists_cons_of_ne_nil (good_symbol_facts hgb).1
      rw [sexpr_symbol_data, hcl] at h
      simp only [List.cons_append, List.cons.injEq] at h
      exact good_symbol_head_ne_lparen hgb hcl h.1.symm
    | Integer z =>
      exfalso
      rw [sexpr_shape_add] at h
      obtain ⟨c, l, hcl, hc⟩ := intChars_head_not_lparen z
      rw [show sexprChars (.Integer z) = intChars z from rfl, hcl] at h
      simp only [List.cons_append, List.cons.injEq] at h
      exact hc h.1.symm
    | Add b₁ b₂ =>
      obtain ⟨hgb1, hgb2⟩ := good_add_parts hgb
      rw [sexpr_shape_add, sexpr_shape_add] at h
      simp only [List.cons.injEq, true_and] at h
      obtain ⟨e₁, h₂⟩ := ih₁ b₁ _ _ hga1 hgb1 h (Or.inl rfl) (Or.inl rfl)
      simp only [List.cons.injEq, true_and] at h₂
      obtain ⟨e₂, h₃⟩ := ih₂ b₂ _ _ hga2 hgb2 h₂ (Or.inr rfl) (Or.inr rfl)
      simp only [List.cons.injEq, true_and] at h₃
      exact ⟨by rw [e₁, e₂], h₃⟩
    | Mul b₁ b₂ =>
      exfalso
      rw [sexpr_shape_add, sexpr_shape_mul] at h
      simp at h
  | Mul a₁ a₂ ih₁ ih₂ =>
    intro b u v hga hgb h hu hv
    obtain ⟨hga1, hga2⟩ := good_mul_parts hga
    cases b with
    | Symbol m =>
      exfalso
      rw [sexpr_shape_mul] at h
      obtain ⟨c, l, hcl⟩ := List.exists_cons_of_ne_nil (good_symbol_facts hgb).1
      rw [sexpr_symbol_data, hcl] at h
      simp only [List.cons_append, List.cons.injEq] at h
      exact good_symbol_head_ne_lparen hgb hcl h.1.symm
    | Integer z =>
      exfalso
      rw [sexpr_shape_mul] at h
      obtain ⟨c, l, hcl, hc⟩ := intChars_head_not_lparen z
      rw [show sexprChars (.Integer z) = intChars z from rfl, hcl] at h
      simp only [List.cons_append, List.cons.injEq] at h
      exact hc h.1.symm
    | Add b₁ b₂ =>
      exfalso
      rw [sexpr_shape_mul, sexpr_shape_add] at h
      simp at h
    | Mul b₁ b₂ =>
      obtain ⟨hgb1, hgb2⟩ := good_mul_parts hgb
      rw [sexpr_shape_mul, sexpr_shape_mul] at h
      simp only [List.cons.injEq, true_and] at h
      obtain ⟨e₁, h₂⟩ := ih₁ b₁ _ _ hga1 hgb1 h (Or.inl rfl) (Or.inl rfl)
      simp only [List.cons.injEq, true_and] at h₂
      obtain ⟨e₂, h₃⟩ := ih₂ b₂ _ _ hga2 hgb2 h₂ (Or.inr rfl) (Or.inr rfl)
      simp only [List.cons.injEq, true_and] at h₃
      exact ⟨by rw [e₁, e₂], h₃⟩

/-- The infix `repr` rendering is prefix-unambiguous over well-named
expressions. -/
lemma repr_unamb :
    ∀ a b (u v : List Char), goodE a = true → goodE b = true →
      reprChars a ++ u = reprChars b ++ v → delimHead u → delimHead v →
      a = b ∧ u = v := by
  intro a
  induction a with
  | Symbol n =>
    intro b u v hga hgb h hu hv
    cases b with
    | Symbol m =>
      obtain ⟨hd, hrest⟩ := noDelim_append_inj _ _ _ _ h
        (good_symbol_not_delim hga) (good_symbol_not_delim hgb) hu hv
      exact ⟨by rw [string_eq_of_data hd], hrest⟩
    | Integer w =>
      exfalso
      obtain ⟨hd, _⟩ := noDelim_append_inj _ _ _ _ h
        (good_symbol_not_delim hga) (int_chars_not_delim w) hu hv
      exact good_symbol_ne_intChars hga w hd
    | Add b₁ b₂ =>
      exfalso
      rw [repr_shape_add] at h
      obtain ⟨c, l, hcl⟩ := List.exists_cons_of_ne_nil (good_symbol_facts hga).1
      rw [repr_symbol_data, hcl] at h
      simp only [List.cons_append, List.cons.injEq] at h
      exact good_symbol_head_ne_lparen hga hcl h.1
    | Mul b₁ b₂ =>
      exfalso
      rw [repr_shape_mul] at h
      obtain ⟨c, l, hcl⟩ := List.exists_cons_of_ne_nil (good_symbol_facts hga).1
      rw [repr_symbol_data, hcl] at h
      simp only [List.cons_append, List.cons.injEq] at h
      exact good_symbol_head_ne_lparen hga hcl h.1
  | Integer w =>
    intro b u v hga hgb h hu hv
    cases b with
    | Symbol m =>
      exfalso
      obtain ⟨hd, _⟩ := noDelim_append_inj _ _ _ _ h
        (int_chars_not_delim w) (good_symbol_not_delim hgb) hu hv
      exact good_symbol_ne_intChars hgb w hd.symm
    | Integer z =>
      obtain ⟨hd, hrest⟩ := noDelim_append_inj _ _ _ _ h
        (int_chars_not_delim w) (int_chars_not_delim z) hu hv
      exact ⟨by rw [intChars_inj hd], hrest⟩
    | Add b₁ b₂ =>
      exfalso
      rw [repr_shape_add] at h
      obtain ⟨c, l, hcl, hc⟩ := intChars_head_not_lparen w
      rw [show reprChars (.Integer w) = intChars w from rfl, hcl] at h
      simp only [List.cons_append, List.cons.injEq] at h
      exact hc h.1
    | Mul b₁ b₂ =>
      exfalso
      rw [repr_shape_mul] at h
      obtain ⟨c, l, hcl, hc⟩ := intChars_head_not_lparen w
      rw [show reprChars (.Integer w) = intChars w from rfl, hcl] at h
      simp only [List.cons_append, List.cons.injEq] at h
      exact hc h.1
  | Add a₁ a₂ ih₁ ih₂ =>
    intro b u v hga hgb h hu hv
    obtain ⟨hga1, hga2⟩ := good_add_parts hga
    cases b with
    | Symbol m =>
      exfalso
      rw [repr_shape_add] at h
      obtain ⟨c, l, hcl⟩ := List.exists_cons_of_ne_nil (good_symbol_facts hgb).1
      rw [repr_symbol_data, hcl] at h
      simp only [List.cons_append, List.cons.injEq] at h
      exact good_symbol_head_ne_lparen hgb hcl h.1.symm
    | Integer z =>
      exfalso
      rw [repr_shape_add] at h
      obtain ⟨c, l, hcl, hc⟩ := intChars_head_not_lparen z
      rw [show reprChars (.Integer z) = intChars z from rfl, hcl] at h
      simp only [List.cons_append, List.cons.injEq] at h
      exact hc h.1.symm
    | Add b₁ b₂ =>
      obtain ⟨hgb1, hgb2⟩ := good_add_parts hgb
      rw [repr_shape_add, repr_shape_add] at h
      simp only [List.cons.injEq, true_and] at h
      obtain ⟨e₁, h₂⟩ := ih₁ b₁ _ _ hga1 hgb1 h (Or.inl rfl) (Or.inl rfl)
      simp only [List.cons.injEq, true_and] at h₂
      obtain ⟨e₂, h₃⟩ := ih₂ b₂ _ _ hga2 hgb2 h₂ (Or.inr rfl) (Or.inr rfl)
      simp only [List.cons.injEq, true_and] at h₃
      exact ⟨by rw [e₁, e₂], h₃⟩
    | Mul b₁ b₂ =>
      exfalso
      obtain ⟨hgb1, hgb2⟩ := good_mul_parts hgb
      rw [repr_shape_add, repr_shape_mul] at h
      simp only [List.cons.injEq, true_and] at h
      obtain ⟨_, h₂⟩ := ih₁ b₁ _ _ hga1 hgb1 h (Or.inl rfl) (Or.inl rfl)
      simp at h₂
  | Mul a₁ a₂ ih₁ ih₂ =>
    intro b u v hga hgb h hu hv
    obtain ⟨hga1, hga2⟩ := good_mul_parts hga
    cases b with
    | Symbol m =>
      exfalso
      rw [repr_shape_mul] at h
      obtain ⟨c, l, hcl⟩ := List.exists_cons_of_ne_nil (good_symbol_facts hgb).1
      rw [repr_symbol_data, hcl] at h
      simp only [List.cons_append, List.cons.injEq] at h
      exact good_symbol_head_ne_lparen hgb hcl h.1.symm
    | Integer z =>
      exfalso
      rw [repr_shape_mul] at h
      obtain ⟨c, l, hcl, hc⟩ := intChars_head_not_lparen z
      rw [show reprChars (.Integer z) = intChars z from rfl, hcl] at h
      simp only [List.cons_append, List.cons.injEq] at h
      exact hc h.1.symm
    | Add b₁ b₂ =>
      exfalso
      obtain ⟨hgb1, hgb2⟩ := good_add_parts hgb
      rw [repr_shape_mul, repr_shape_add] at h
      simp only [List.cons.injEq, true_and] at h
      obtain ⟨_, h₂⟩ := ih₁ b₁ _ _ hga1 hgb1 h (Or.inl rfl) (Or.inl rfl)
      simp at h₂
    | Mul b₁ b₂ =>
      obtain ⟨hgb1, hgb2⟩ := good_mul_parts hgb
      rw [repr_shape_mul, repr_shape_mul] at h
      simp only [List.cons.injEq, true_and] at h
      obtain ⟨e₁, h₂⟩ := ih₁ b₁ _ _ hga1 hgb1 h (Or.inl rfl) (Or.inl rfl)
      simp only [List.cons.injEq, true_and] at h₂
      obtain ⟨e₂, h₃⟩ := ih₂ b₂ _ _ hga2 hgb2 h₂ (Or.inr rfl) (Or.inr rfl)
      simp only [List.cons.injEq, true_and] at h₃
      exact ⟨by rw [e₁, e₂], h₃⟩

lemma sexprChars_inj {a b : Expr} (ha : goodE a = true) (hb : goodE b = true)
    (h : sexprChars a = sexprChars b) : a = b :=
  (sexpr_unamb a b [] [] ha hb (by simpa using h) trivial trivial).1

lemma reprChars_inj {a b : Expr} (ha : goodE a = true) (hb : goodE b = true)
    (h : reprChars a = reprChars b) : a = b :=
  (repr_unamb a b [] [] ha hb (by simpa using h) trivial trivial).1

/-! ## Remaining bridging lemmas for the claim statements -/

lemma eqb_eq_of_good {a b : Expr} (ha : goodE a = true) (hb : goodE b = true)
    (h : eqb a b = true) : a = b := by
  cases a with
  | Symbol n =>
    cases b with
    | Symbol m =>
      simp only [eqb, beq_iff_eq] at h
      rw [h]
    | Integer v => simp [eqb] at h
    | Add x y => simp [eqb] at h
    | Mul x y => simp [eqb] at h
  | Integer v =>
    simp only [eqb, beq_iff_eq] at h
    exact reprChars_inj ha hb h
  | Add x y =>
    simp only [eqb, beq_iff_eq] at h
    exact reprChars_inj ha hb h
  | Mul x y =>
    simp only [eqb, beq_iff_eq] at h
    exact reprChars_inj ha hb h

lemma string_data_append (a b : String) : (a ++ b).data = a.data ++ b.data := by
  cases a
  cases b
  rfl

end Algebruh

namespace Algebruh

/-! ## The claims -/

/-- Claim C1: `simplify` recursively simplifies the two children of `Add`
and `Mul` and then applies exactly the stated rules — for `Add`: left zero
gives the right child, right zero gives the left, equal simplified children
give `2 * left`, otherwise the `Add` is rebuilt (through the `+`
construction, which folds two integers); for `Mul`: a zero child gives
`Integer 0`, a one on the left gives the right child, a one on the right
gives the left, otherwise the `Mul` is rebuilt; atoms are returned
unchanged.  In particular `simplify(x + 0) == x`, `simplify(x * 0) == 0`,
`simplify(x * 1) == x`, and `simplify((1*x) + (1*x)) == 2*x`. -/
theorem c1_simplify_rules :
    (∀ x y : Expr,
      simplify (.Add x y) =
        (if simplify x = .Integer 0 then simplify y
         else if simplify y = .Integer 0 then simplify x
         else if eqb (simplify x) (simplify y) = true then .Mul (.Integer 2) (simplify x)
         else hAdd (simplify x) (simplify y)))
  ∧ (∀ x y : Expr,
      simplify (.Mul x y) =
        (if simplify x = .Integer 0 ∨ simplify y = .Integer 0 then .Integer 0
         else if simplify x = .Integer 1 then simplify y
         else if simplify y = .Integer 1 then simplify x
         else .Mul (simplify x) (simplify y)))
  ∧ (∀ n : String, simplify (.Symbol n) = .Symbol n)
  ∧ (∀ v : Int, simplify (.Integer v) = .Integer v)
  ∧ simplify (.Add (.Symbol "x") (.Integer 0)) = .Symbol "x"
  ∧ simplify (.Mul (.Symbol "x") (.Integer 0)) = .Integer 0
  ∧ simplify (.Mul (.Symbol "x") (.Integer 1)) = .Symbol "x"
  ∧ simplify (.Add (.Mul (.Integer 1) (.Symbol "x")) (.Mul (.Integer 1) (.Symbol "x")))
      = .Mul (.Integer 2) (.Symbol "x") := by
  refine ⟨?_, ?_, fun n => rfl, fun v => rfl, by decide, by decide, by decide, by decide⟩
  · intro x y
    rw [simplify_add]
    simp only [eqb_integer]
  · intro x y
    rw [simplify_mul]
    simp only [Bool.or_eq_true, eqb_integer, hMul]

/-- Claim C2 counterexample: `derivative(x*x*x, x)` does not compare equal
to `3*x*x` (in either direction of `==`), because the single-pass
simplifier leaves the product rule's two terms separate. -/
theorem c2_cube_counterexample :
    eqb (derivative (.Mul (.Mul (.Symbol "x") (.Symbol "x")) (.Symbol "x")) (.Symbol "x"))
        (.Mul (.Mul (.Integer 3) (.Symbol "x")) (.Symbol "x")) = false
  ∧ eqb (.Mul (.Mul (.Integer 3) (.Symbol "x")) (.Symbol "x"))
        (derivative (.Mul (.Mul (.Symbol "x") (.Symbol "x")) (.Symbol "x")) (.Symbol "x"))
      = false
  ∧ derivative (.Mul (.Mul (.Symbol "x") (.Symbol "x")) (.Symbol "x")) (.Symbol "x")
      ≠ .Mul (.Mul (.Integer 3) (.Symbol "x")) (.Symbol "x") := by
  decide

/-- Claim C2 as amended: `derivative(x*x*x, x)` — with `x*x*x` being
`Mul(Mul(x, x), x)` — returns `((2 * x) * x) + (x * x)`, i.e. the two
product-rule terms are kept as a sum and are not combined into `3*x*x`. -/
theorem c2_cube_amended :
    derivative (.Mul (.Mul (.Symbol "x") (.Symbol "x")) (.Symbol "x")) (.Symbol "x")
      = .Add (.Mul (.Mul (.Integer 2) (.Symbol "x")) (.Symbol "x"))
          (.Mul (.Symbol "x") (.Symbol "x")) := by
  decide

/-- Claim C3 counterexample: `a == b` does not coincide with
`to_sexpr(a) == to_sexpr(b)`: equality compares the infix `repr` strings,
so `Mul(x, y) == Symbol("(x * y)")` is true while the two s-expression
renderings differ. -/
theorem c3_eq_serialization_counterexample :
    eqb (.Mul (.Symbol "x") (.Symbol "y")) (.Symbol "(x * y)") = true
  ∧ to_sexpr (.Mul (.Symbol "x") (.Symbol "y")) ≠ to_sexpr (.Symbol "(x * y)") := by
  decide

/-- Claim C3 as amended: `e == e` always holds, and `a == b` holds iff
`to_sexpr(a) == to_sexpr(b)` for expressions whose `Symbol` names are
nonempty purely-alphabetic strings (so that no name can collide with a
rendered composite node or a decimal integer); for arbitrary names the
equivalence fails as in the counterexample. -/
theorem c3_eq_serialization_amended :
    (∀ e : Expr, eqb e e = true)
  ∧ (∀ a b : Expr, goodE a = true → goodE b = true →
      (eqb a b = true ↔ to_sexpr a = to_sexpr b)) := by
  refine ⟨eqb_refl, ?_⟩
  intro a b ha hb
  constructor
  · intro h
    rw [eqb_eq_of_good ha hb h]
  · intro h
    rw [sexprChars_inj ha hb (congrArg String.data h)]
    exact eqb_refl b

/-- Claim C3 witness: the amended equivalence evaluated at a concrete
well-named pair. -/
theorem c3_eq_serialization_witness :
    goodE (.Add (.Symbol "x") (.Symbol "y")) = true
  ∧ goodE (.Symbol "x") = true
  ∧ (eqb (.Add (.Symbol "x") (.Symbol "y")) (.Symbol "x") = true
      ↔ to_sexpr (.Add (.Symbol "x") (.Symbol "y")) = to_sexpr (.Symbol "x")) :=
  ⟨by decide, by decide,
    c3_eq_serialization_amended.2 (.Add (.Symbol "x") (.Symbol "y")) (.Symbol "x")
      (by decide) (by decide)⟩

/-- Claim C4 counterexample: for an unsupported input `to_expr` raises a
`ValueError` whose message names the unsupported value — not a
`TypeError`-class error naming the input type. -/
theorem c4_coercion_counterexample :
    to_expr (.str "hello") = .error (.valueError "Cannot convert hello to Expr")
  ∧ isTypeErrorResult (to_expr (.str "hello")) = false := by
  constructor
  · rfl
  · rfl

/-- Claim C4 as amended: `to_expr` returns an Expression unchanged, wraps a
native int in `Integer` (with `to_expr(i) == Integer(i)` and
`to_expr(i) == i`), and for every other input (a float or a string) fails
with a `ValueError`-class error whose message names the unsupported value,
propagated to the caller. -/
theorem c4_coercion_amended :
    (∀ e : Expr, to_expr (.expr e) = .ok e)
  ∧ (∀ i : Int, to_expr (.int i) = .ok (.Integer i))
  ∧ (∀ i : Int, eqb (.Integer i) (.Integer i) = true)
  ∧ (∀ s : String, to_expr (.str s) = .error (.valueError ("Cannot convert " ++ s ++ " to Expr")))
  ∧ (∀ d : String, to_expr (.float d) = .error (.valueError ("Cannot convert " ++ d ++ " to Expr")))
  ∧ (∀ s : String, isTypeErrorResult (to_expr (.str s)) = false)
  ∧ (∀ d : String, isTypeErrorResult (to_expr (.float d)) = false) :=
  ⟨fun _ => rfl, fun _ => rfl, fun _ => eqb_refl _, fun _ => rfl, fun _ => rfl,
    fun _ => rfl, fun _ => rfl⟩

/-- Claim C5: `derivative` computes the sum rule for `Add`, the product
rule `derivative(a)*b + derivative(b)*a` for `Mul`, zero for `Integer` and
one or zero for `Symbol` depending on equality with `var` (all dispatching
on the pre-simplified input, per `derivBody`), and the result is always
passed through the Simplifier; in particular `derivative(x*2, x) == 2` as
an `Integer` and `derivative(x*x, x) == 2*x`. -/
theorem c5_derivative_rules :
    (∀ e v : Expr, derivative e v = simplify (derivBody e v))
  ∧ derivative (.Mul (.Symbol "x") (.Integer 2)) (.Symbol "x") = .Integer 2
  ∧ derivative (.Mul (.Symbol "x") (.Symbol "x")) (.Symbol "x")
      = .Mul (.Integer 2) (.Symbol "x")
  ∧ eqb (derivative (.Mul (.Symbol "x") (.Integer 2)) (.Symbol "x")) (.Integer 2) = true
  ∧ eqb (derivative (.Mul (.Symbol "x") (.Symbol "x")) (.Symbol "x"))
        (.Mul (.Integer 2) (.Symbol "x")) = true :=
  ⟨derivative_eq_body, by decide, by decide, by decide, by decide⟩

/-- Claim C6: `+` on two `Integer`-coercible operands with an `Integer`
node on the left folds into a single `Integer(a.value + b.value)` at
construction time; every other `+` builds an `Add` node, and `*` never
folds. -/
theorem c6_constant_folding :
    (∀ x y : Int, hAdd (.Integer x) (.Integer y) = .Integer (x + y))
  ∧ (∀ x y : Int, pythonAdd (.Integer x) (.int y) = .ok (.Integer (x + y)))
  ∧ (∀ x y : Int, pythonAdd (.Integer x) (.expr (.Integer y)) = .ok (.Integer (x + y)))
  ∧ (∀ a b : Expr, isInteger a = false ∨ isInteger b = false → hAdd a b = .Add a b)
  ∧ (∀ a b : Expr, hMul a b = .Mul a b) :=
  ⟨fun _ _ => rfl, fun _ _ => rfl, fun _ _ => rfl,
    fun _ _ h => hAdd_of_not_both_int h, fun _ _ => rfl⟩

/-- Claim C6 witness: the non-folding conjunct at a concrete non-integer
left operand. -/
theorem c6_constant_folding_witness :
    isInteger (Expr.Symbol "x") = false
  ∧ hAdd (.Symbol "x") (.Integer 1) = .Add (.Symbol "x") (.Integer 1) :=
  ⟨by decide, c6_constant_folding.2.2.2.1 (.Symbol "x") (.Integer 1) (Or.inl (by decide))⟩

/-- Claim C7: `to_sexpr` renders a binary node as
`(<op> <sexpr lhs> <sexpr rhs>)` with single-space separators and an atom
as its name or decimal value; in particular
`to_sexpr(Integer(2) + Integer(3)*Integer(4)) == "(+ 2 (* 3 4))"`. -/
theorem c7_sexpr_format :
    (∀ a b : Expr,
      to_sexpr (.Add a b) = "(" ++ "+" ++ " " ++ to_sexpr a ++ " " ++ to_sexpr b ++ ")")
  ∧ (∀ a b : Expr,
      to_sexpr (.Mul a b) = "(" ++ "*" ++ " " ++ to_sexpr a ++ " " ++ to_sexpr b ++ ")")
  ∧ (∀ n : String, to_sexpr (.Symbol n) = n)
  ∧ (∀ v : Int, to_sexpr (.Integer v) = intStr v)
  ∧ to_sexpr (hAdd (.Integer 2) (hMul (.Integer 3) (.Integer 4))) = "(+ 2 (* 3 4))" := by
  refine ⟨?_, ?_, ?_, fun v => rfl, by decide⟩
  · intro a b
    apply string_eq_of_data
    simp only [string_data_append]
    show sexprChars (.Add a b)
      = ['('] ++ ['+'] ++ [' '] ++ sexprChars a ++ [' '] ++ sexprChars b ++ [')']
    simp [sexprChars]
  · intro a b
    apply string_eq_of_data
    simp only [string_data_append]
    show sexprChars (.Mul a b)
      = ['('] ++ ['*'] ++ [' '] ++ sexprChars a ++ [' '] ++ sexprChars b ++ [')']
    simp [sexprChars]
  · intro n
    apply string_eq_of_data
    rfl

/-- Claim C8: an expression that is already a fixed point of simplification
(`simplify(e) == e`) satisfies `simplify(simplify(e)) == simplify(e)`. -/
theorem c8_idempotent_on_fixed_points :
    ∀ e : Expr, eqb (simplify e) e = true →
      eqb (simplify (simplify e)) (simplify e) = true := by
  intro e h
  rw [simplify_fix_of_eqb h]
  exact h

/-- Claim C8 witness: the idempotence instance at `Symbol "x"`. -/
theorem c8_idempotent_on_fixed_points_witness :
    eqb (simplify (.Symbol "x")) (.Symbol "x") = true
  ∧ eqb (simplify (simplify (.Symbol "x"))) (simplify (.Symbol "x")) = true :=
  ⟨by decide, c8_idempotent_on_fixed_points (.Symbol "x") (by decide)⟩

/-- Claim C9: equality is not symmetric — a non-`Symbol` node whose `repr`
rendering coincides with a `Symbol`'s name compares equal to that `Symbol`,
while the `Symbol` (comparing by name only) does not compare equal back. -/
theorem c9_eq_asymmetric :
    eqb (.Mul (.Symbol "a") (.Symbol "b")) (.Symbol "(a * b)") = true
  ∧ eqb (.Symbol "(a * b)") (.Mul (.Symbol "a") (.Symbol "b")) = false := by
  decide

/-- Claim C10: the derivative of an expression with respect to a `Symbol`
whose name occurs nowhere in it is `Integer 0`. -/
theorem c10_derivative_foreign_symbol :
    ∀ (e : Expr) (n : String), occursName n e = false →
      derivative e (.Symbol n) = .Integer 0 :=
  fun e n h => deriv_zero_aux e.size e n le_rfl h

/-- Claim C10 witness: a concrete expression free of the symbol `y`. -/
theorem c10_derivative_foreign_symbol_witness :
    occursName "y" (.Mul (.Add (.Symbol "x") (.Integer 3)) (.Symbol "x")) = false
  ∧ derivative (.Mul (.Add (.Symbol "x") (.Integer 3)) (.Symbol "x")) (.Symbol "y")
      = .Integer 0 :=
  ⟨by decide,
    c10_derivative_foreign_symbol (.Mul (.Add (.Symbol "x") (.Integer 3)) (.Symbol "x"))
      "y" (by decide)⟩

end Algebruh
